import Mathlib

/-!
Verification of the URL-classification, row-flagging and resumable-driver
logic of the nlnet data-preparation pipeline
(`utils/initial_data_preparation.py` and `src/github_repo_request_local.py`).

The Python code is shallowly embedded: strings become `List Char` / `String`,
per-row dataframe operations become list maps, and Python exceptions become
`Except PyErr`.  The relevant fragment of `urllib.parse.urlparse` (scheme,
netloc, path, params, query, fragment splitting and the `hostname` accessor)
is embedded faithfully for that purpose, following the CPython algorithm:
leading C0-control/space characters are stripped, tab/CR/LF are removed,
the scheme is split at the first colon when the prefix is a valid scheme
token, the netloc after `//` runs until `/`, `?` or `#`, the fragment is
split at the first `#`, the query at the first `?`, and RFC-1808 params are
split off the last path segment at `;`.  A mismatched `[`/`]` in the netloc
raises `ValueError`; hostnames are lowercased (ASCII range, as the
hostnames in this data set are ASCII).
-/

/-- A Python value as it may appear in the `repourl` column: a string, `None`,
an integer, or a boolean.  Used to model dynamic typing of dataframe cells. -/
inductive PyVal where
  | pstr (s : String)
  | pnone
  | pint (n : Int)
  | pbool (b : Bool)
deriving DecidableEq

/-- Python truthiness for the values above: `None`, `""`, `0` and `False`
are falsy. -/
def PyVal.falsy : PyVal → Bool
  | .pstr s => s = ""
  | .pnone => true
  | .pint n => n = 0
  | .pbool b => !b

/-- A Python exception kind raised by the embedded code. -/
inductive PyErr where
  | attributeError
  | valueError
deriving DecidableEq

/-! ### Python string primitives on `List Char` -/

/-- Python `s.split(c)` for a single-character separator. -/
def pySplit (c : Char) (l : List Char) : List (List Char) :=
  l.splitOn c

/-- Python `c.join(ls)` for a single-character separator. -/
def pyJoin (c : Char) (ls : List (List Char)) : List Char :=
  [c].intercalate ls

/-- Python `s.lstrip(c)` for a single strip character. -/
def pyLstrip (c : Char) (l : List Char) : List Char :=
  l.dropWhile (· = c)

/-- Python `s.rstrip(c)` for a single strip character. -/
def pyRstrip (c : Char) (l : List Char) : List Char :=
  (l.reverse.dropWhile (· = c)).reverse

/-- Python `s.strip(c)` for a single strip character. -/
def pyStrip (c : Char) (l : List Char) : List Char :=
  pyRstrip c (pyLstrip c l)

/-- The part of `l` before the first occurrence of `c`
(all of `l` when `c` does not occur), as in Python `s.split(c, 1)[0]`. -/
def takeUntil (c : Char) (l : List Char) : List Char :=
  l.takeWhile (· ≠ c)

/-- The part of `l` after the first occurrence of `c`
(empty when `c` does not occur), as in Python `s.split(c, 1)[1]`. -/
def dropPast (c : Char) (l : List Char) : List Char :=
  match l.dropWhile (· ≠ c) with
  | [] => []
  | _ :: t => t

/-- Whether `needle` occurs at the start of `hay`. -/
def leadSeg : List Char → List Char → Bool
  | [], _ => true
  | _ :: _, [] => false
  | a :: as, b :: bs => a = b && leadSeg as bs

/-- Python substring containment `needle in hay`. -/
def containsSub (needle : List Char) : List Char → Bool
  | [] => needle.isEmpty
  | b :: bs => leadSeg needle (b :: bs) || containsSub needle bs

/-! ### The embedded fragment of `urllib.parse` -/

/-- The six components returned by `urllib.parse.urlparse`. -/
structure UrlParts where
  scheme : List Char
  netloc : List Char
  path : List Char
  params : List Char
  query : List Char
  fragment : List Char
deriving DecidableEq

/-- A character CPython does not delete from URLs: anything but tab, CR, LF. -/
def keepChar (c : Char) : Bool :=
  c ≠ '\t' && c ≠ '\r' && c ≠ '\n'

/-- CPython url sanitisation: strip leading C0-control/space characters, then
remove every tab, CR and LF. -/
def sanitizeUrl (l : List Char) : List Char :=
  (l.dropWhile (fun c => c.toNat ≤ 32)).filter keepChar

/-- A character allowed in a URL scheme (ASCII letter, digit, `+`, `-`, `.`). -/
def isSchemeChar (c : Char) : Bool :=
  c.isAlpha || c.isDigit || c = '+' || c = '-' || c = '.'

/-- Split the scheme from a URL: CPython takes the part before the first
colon when it is nonempty, starts with an ASCII letter and consists of
scheme characters, and lowercases it; otherwise the scheme is empty. -/
def splitScheme (l : List Char) : List Char × List Char :=
  if l.contains ':' then
    let pre := takeUntil ':' l
    if (match pre with | c :: _ => c.isAlpha | [] => false) && pre.all isSchemeChar then
      (pre.map Char.toLower, dropPast ':' l)
    else ([], l)
  else ([], l)

/-- A character that does not end the netloc (CPython stops at the first
`/`, `?` or `#` after the leading `//`). -/
def notNetlocDelim (c : Char) : Bool :=
  c ≠ '/' && c ≠ '?' && c ≠ '#'

/-- Split the netloc from the rest after the scheme: only when the rest
starts with `//`. -/
def splitNetlocStep (l : List Char) : List Char × List Char :=
  match l with
  | '/' :: '/' :: rest => (rest.takeWhile notNetlocDelim, rest.dropWhile notNetlocDelim)
  | _ => ([], l)

/-- CPython `_splitparams`: split RFC-1808 params off the last path segment
at the first `;` occurring in that segment. -/
def splitParamsP (l : List Char) : List Char × List Char :=
  let parts := pySplit '/' l
  let lastSeg := parts.getLastD []
  if lastSeg.contains ';' then
    (pyJoin '/' (parts.dropLast ++ [takeUntil ';' lastSeg]), dropPast ';' lastSeg)
  else (l, [])

/-- The embedded `urllib.parse.urlparse` on character lists. -/
def urlparseL (l : List Char) : UrlParts :=
  let u0 := sanitizeUrl l
  let sr := splitScheme u0
  let nr := splitNetlocStep sr.2
  let pathq := takeUntil '#' nr.2
  let frag := dropPast '#' nr.2
  let pathr := takeUntil '?' pathq
  let qry := dropPast '?' pathq
  let pp := splitParamsP pathr
  ⟨sr.1, nr.1, pp.1, pp.2, qry, frag⟩

/-- CPython raises `ValueError` for a netloc with `[` but no `]` or
vice versa (invalid IPv6 URL). -/
def bracketsMismatch (netloc : List Char) : Bool :=
  (netloc.contains '[') != (netloc.contains ']')

/-- The `hostname` accessor of a parse result: the netloc after the last
`@`, up to the first `:` (or between `[` and `]`), lowercased; `none` when
empty. -/
def hostnameOf (netloc : List Char) : Option (List Char) :=
  let hostinfo := (netloc.reverse.takeWhile (· ≠ '@')).reverse
  let host :=
    if hostinfo.contains '[' then takeUntil ']' (dropPast '[' hostinfo)
    else takeUntil ':' hostinfo
  if host.isEmpty then none else some (host.map Char.toLower)

/-- CPython `_coerce_args`: a string is used as is, a falsy non-string is
coerced to the empty string, and a truthy non-string raises
`AttributeError` (no `decode` method). -/
def coerceUrlArg : PyVal → Except PyErr String
  | .pstr s => .ok s
  | v => if v.falsy then .ok "" else .error .attributeError

/-- The embedded `urlparse` on a Python value, including the coercion of the
argument and the invalid-IPv6 `ValueError`. -/
def urlparsePy (v : PyVal) : Except PyErr UrlParts := do
  let s ← coerceUrlArg v
  let P := urlparseL s.data
  if bracketsMismatch P.netloc then .error .valueError else pure P

/-! ### The URL classifier of `utils/initial_data_preparation.py` -/

/-- The schemes accepted by `get_domain`: `http`, `https`, `git`. -/
def schemeSupported (sch : List Char) : Bool :=
  sch = "http".data || sch = "https".data || sch = "git".data

/-- Embeds `get_domain` (initial_data_preparation.py lines 201-206): parse
the URL and return the hostname when the scheme is supported, else `None`.
Exceptions from `urlparse` propagate. -/
def get_domain (v : PyVal) : Except PyErr (Option String) := do
  let P ← urlparsePy v
  if schemeSupported P.scheme then
    pure ((hostnameOf P.netloc).map fun h => ⟨h⟩)
  else
    pure none

/-- Embeds `is_complete_url` (initial_data_preparation.py lines 249-255):
non-strings are never complete; a string is complete when, after removing
trailing slashes, splitting on `/` yields at least 5 parts. -/
def is_complete_url : PyVal → Bool
  | .pstr s => 5 ≤ (pySplit '/' (pyRstrip '/' s.data)).length
  | _ => false

/-- The `direct_path_platforms` set of `extract_url`
(initial_data_preparation.py lines 310-319). -/
def directPathPlatforms : List (List Char) :=
  ["gitlab.com".data, "gitlab.torproject.org".data, "codeberg.org".data,
   "framagit.org".data, "hydrillabugs.koszko.org".data, "git.replicant.us".data,
   "gerrit.osmocom.org".data, "git.taler.net".data]

/-- Python `any(host in netloc for host in direct_path_platforms)`:
substring containment of some platform name in the netloc. -/
def netlocHasPlatform (netloc : List Char) : Bool :=
  directPathPlatforms.any (fun h => containsSub h netloc)

/-- The core of `extract_url` (initial_data_preparation.py lines 300-331)
after the falsiness check, on an already-parsed string: strip and split the
path; platforms matched by substring keep the whole path, otherwise fewer
than 2 parts fail and the first two parts are kept. -/
def extractUrlCore (sdata : List Char) : Option (List Char) × Bool :=
  let P := urlparseL sdata
  let parts := pySplit '/' (pyStrip '/' P.path)
  if netlocHasPlatform P.netloc then
    (some (P.scheme ++ "://".data ++ P.netloc ++ "/".data ++ pyJoin '/' parts), false)
  else if parts.length < 2 then
    (none, true)
  else
    (some (P.scheme ++ "://".data ++ P.netloc ++ "/".data ++ pyJoin '/' (parts.take 2)), false)

/-- Embeds `extract_url` (initial_data_preparation.py lines 300-331) on a
Python value: falsy input returns `(None, True)` immediately; otherwise the
URL is parsed (which may raise for truthy non-strings or bad brackets) and
the base path extracted. -/
def extract_url (v : PyVal) : Except PyErr (Option String × Bool) :=
  if v.falsy then .ok (none, true)
  else match v with
    | .pstr s =>
      if bracketsMismatch (urlparseL s.data).netloc then .error .valueError
      else
        let r := extractUrlCore s.data
        .ok (r.1.map fun l => ⟨l⟩, r.2)
    | _ => .error .attributeError

section Examples

example : is_complete_url (.pstr "https://github.com/owner/repo") = true := by decide
example : is_complete_url (.pstr "https://github.com/owner") = false := by decide
example : get_domain (.pstr "https://github.com/openai") = .ok (some "github.com") := rfl
example : get_domain (.pstr "ftp://example.net/resource") = .ok none := rfl
example : get_domain (.pstr "http:///bad-url.com") = .ok none := rfl
example : extract_url (.pstr "https://github.com/osresearch/heads/issues/540") =
    .ok (some "https://github.com/osresearch/heads", false) := rfl
example : extract_url (.pstr "https://gitlab.com/technostructures/kazarma/kazarma") =
    .ok (some "https://gitlab.com/technostructures/kazarma/kazarma", false) := rfl
example : extract_url (.pstr "https://github.com/namecoin") = .ok (none, true) := rfl
example : extract_url .pnone = .ok (none, true) := rfl

end Examples

/-! ### The dataframe pipeline of `utils/initial_data_preparation.py` -/

/-- A row of the preparation dataframe together with the flag columns the
pipeline adds; flag fields default to their state before the corresponding
step runs. -/
structure PrepRow where
  projectref : String
  nlnetpage : String
  repourl : PyVal
  duplicate_flag : Bool := false
  null_value_flag : Bool := false
  repodomain : Option String := none
  domain_extraction_flag : Bool := false
  incomplete_url_flag : Bool := false
  base_repo_url : Option String := none
  base_repo_url_flag : Bool := false
deriving DecidableEq

/-- The value compared by `df.duplicated` when `mark_duplicates` runs: the
full row, which at that point has the three input columns. -/
def PrepRow.key (r : PrepRow) : String × String × PyVal :=
  (r.projectref, r.nlnetpage, r.repourl)

/-- Embeds `mark_duplicates` (initial_data_preparation.py lines 94-139):
`duplicate_flag` is false for the first occurrence of a full-row value and
true for every later repeat. -/
def mark_duplicates (rows : List PrepRow) : List PrepRow :=
  go [] rows
where
  go (seen : List (String × String × PyVal)) : List PrepRow → List PrepRow
    | [] => []
    | r :: rest =>
      { r with duplicate_flag := decide (r.key ∈ seen) } :: go (r.key :: seen) rest

/-- Embeds `extract_and_flag_domains` (initial_data_preparation.py lines
190-219): `get_domain` is applied to every row's `repourl` — duplicates
included — and `domain_extraction_flag` is set where the domain is null. -/
def extract_and_flag_domains (rows : List PrepRow) : Except PyErr (List PrepRow) :=
  rows.mapM fun r => do
    let d ← get_domain r.repourl
    pure { r with repodomain := d, domain_extraction_flag := d.isNone }

/-- Embeds `filter_out_incomplete_urls` (initial_data_preparation.py lines
222-281): every row — duplicates included — gets
`incomplete_url_flag = not is_complete_url(repourl)`. -/
def filter_out_incomplete_urls (rows : List PrepRow) : List PrepRow :=
  rows.map fun r => { r with incomplete_url_flag := !is_complete_url r.repourl }

/-- Embeds `get_base_repo_url` (initial_data_preparation.py lines 284-336):
`extract_url` is applied to every row's `repourl` regardless of any flag. -/
def get_base_repo_url (rows : List PrepRow) : Except PyErr (List PrepRow) :=
  rows.mapM fun r => do
    let e ← extract_url r.repourl
    pure { r with base_repo_url := e.1, base_repo_url_flag := e.2 }

/-- The pipeline order of the `__main__` block (lines 467-483): duplicates,
domains, incomplete URLs, base repository URLs. -/
def prepPipeline (rows : List PrepRow) : Except PyErr (List PrepRow) :=
  (extract_and_flag_domains (mark_duplicates rows)).bind
    (fun x => get_base_repo_url (filter_out_incomplete_urls x))

/-! ### The resumable batch driver of `src/github_repo_request_local.py` -/

/-- A row of the driver dataframe with the fields the resume logic reads. -/
structure DriverRow where
  repourl : Option String
  duplicate_flag : Bool
  domain_extraction_flag : Bool
  incomplete_url_flag : Bool
  base_repo_url_flag : Bool
  clone_status : Option String
  last_commit_hash : Option String
  testfilecountlocal : Int
deriving DecidableEq

/-- The first skip test of the driver loop (lines 291-297): a duplicate,
domain-extraction, incomplete-URL or base-url flag sends the row to the
next iteration. -/
def skipFlagged (r : DriverRow) : Bool :=
  r.duplicate_flag || r.domain_extraction_flag || r.incomplete_url_flag || r.base_repo_url_flag

/-- The second skip test (line 301): the row counts as fully processed when
`testfilecountlocal != -1` and `pd.notna(last_commit_hash)`. -/
def skipProcessed (r : DriverRow) : Bool :=
  decide (r.testfilecountlocal ≠ -1) && r.last_commit_hash.isSome

/-- The invalid-URL test (line 304): `not repo_url or repo_url is None`. -/
def urlInvalid (r : DriverRow) : Bool :=
  match r.repourl with
  | none => true
  | some s => s = ""

/-- Whether one driver iteration reaches the `git clone` subprocess call
(line 324) for this row: no skip test fires, the URL is valid, and the
clone directory does not already exist (line 321). -/
def cloneInvoked (r : DriverRow) (dirExists : Bool) : Bool :=
  !skipFlagged r && !skipProcessed r && !urlInvalid r && !dirExists

/-- The per-row outcomes of the driver loop that matter for the batch
counter of lines 271-393. -/
inductive RowOutcome where
  | skipped
  | freshSuccess
  | cloneFailed
  | dirReused
deriving DecidableEq

/-- The batch check of lines 384-393: on reaching `BATCH_SIZE` (10) the
dataframe is saved and the counter reset; returns the new counter and
whether a save happened. -/
def batchCheck (n : Nat) : Nat × Bool :=
  if 10 ≤ n then (0, true) else (n, false)

/-- One driver iteration's effect on `processed_count`: skipped rows never
touch it, failed clones increment it once but `continue` past the batch
check (lines 343-352), fresh successful clones increment it twice (lines
333 and 381), and reused clone directories increment it once (line 381)
before the batch check runs. -/
def driverStep (n : Nat) : RowOutcome → Nat × Bool
  | .skipped => (n, false)
  | .cloneFailed => (n + 1, false)
  | .freshSuccess => batchCheck (n + 2)
  | .dirReused => batchCheck (n + 1)

/-- Run the driver loop over a list of row outcomes starting from counter
`n`; returns the final counter and how many mid-loop snapshot saves
happened. -/
def driverRun (rows : List RowOutcome) (n : Nat) : Nat × Nat :=
  match rows with
  | [] => (n, 0)
  | r :: rest =>
    let s := driverStep n r
    let t := driverRun rest s.1
    (t.1, (if s.2 then 1 else 0) + t.2)

/-! ### The explanation column of `src/github_repo_request_local.py` -/

/-- A row of the final dataframe as read by `add_explanations` in
`github_repo_request_local.py`. -/
structure LocalRow where
  repourl : String
  duplicate_flag : Bool
  null_value_flag : Bool
  domain_extraction_flag : Bool
  incomplete_url_flag : Bool
  base_repo_url_flag : Bool
  clone_status : Option String
  last_commit_hash : Option String
  testfilecountlocal : Int
deriving DecidableEq

/-- The incomplete-URL sub-message of `get_explanation` (lines 195-203):
emitted only when the split URL really has fewer than `EXPECTED_URL_PARTS`
(5) parts, with the missing-part count interpolated. -/
def incompleteMsg (repourl : String) : List String :=
  let url_parts := pySplit '/' (pyRstrip '/' repourl.data)
  if url_parts.length < 5 then
    let m := 5 - url_parts.length
    [s!"URL is incomplete; missing {m} parts (expects protocol, domain, and path)."]
  else []

/-- Embeds `get_explanation` (github_repo_request_local.py lines 183-219):
an elif chain selects at most one flag message, then clone-successful rows
append the count/hash messages, and the collected messages are joined with
a vertical-bar separator (or the no-issues text when empty). -/
def get_explanation (row : LocalRow) : String :=
  let tier : List String :=
    if row.duplicate_flag then ["Row is marked as a duplicate of another entry."]
    else if row.null_value_flag then ["Row contains null values."]
    else if row.domain_extraction_flag then
      ["Domain could not be extracted due to unsupported or malformed URL."]
    else if row.incomplete_url_flag then incompleteMsg row.repourl
    else if row.base_repo_url_flag then ["Unable to extract base repository URL."]
    else if row.clone_status = some "failed" then ["Repository clone failed."]
    else if row.clone_status = none then ["Clone status unknown."]
    else []
  let explanations := tier ++
    (if row.clone_status = some "successful" then
      (if row.testfilecountlocal = -1 then ["Test files could not be counted."] else []) ++
      (if row.last_commit_hash = none then ["Last commit hash could not be retrieved."] else [])
     else [])
  if explanations.isEmpty then "No issues detected." else String.intercalate " | " explanations

/-- Follows the spec's words: the single highest-precedence applicable tier,
evaluated in the fixed order duplicate, null-value, unsupported-scheme,
incomplete, base-extraction-failure, clone-status-derived; `none` when no
tier applies. -/
def specTier (row : LocalRow) : Option (List String) :=
  if row.duplicate_flag then some ["Row is marked as a duplicate of another entry."]
  else if row.null_value_flag then some ["Row contains null values."]
  else if row.domain_extraction_flag then
    some ["Domain could not be extracted due to unsupported or malformed URL."]
  else if row.incomplete_url_flag then some (incompleteMsg row.repourl)
  else if row.base_repo_url_flag then some ["Unable to extract base repository URL."]
  else if row.clone_status = some "failed" then some ["Repository clone failed."]
  else if row.clone_status = none then some ["Clone status unknown."]
  else none

/-- Follows the spec's words: render only the highest-precedence tier's
sub-messages joined with a vertical bar, falling back to the no-issues
text. -/
def specExplanation (row : LocalRow) : String :=
  match specTier row with
  | some msgs => if msgs.isEmpty then "No issues detected." else String.intercalate " | " msgs
  | none => "No issues detected."

/-! ### Claims C2, C3, C6, C8, C9 -/

/-- Two identical input rows: the second is a duplicate of the first. -/
def dupRows : List PrepRow :=
  [{ projectref := "p1", nlnetpage := "n1", repourl := .pstr "https://github.com/owner/openai" },
   { projectref := "p1", nlnetpage := "n1", repourl := .pstr "https://github.com/owner/openai" }]

/-- Claim C2 (code_bug evaluation): contrary to the claim — and to the
repository's own test `test_extract_and_flag_domains`, which expects a
duplicate row to keep a null domain — the pipeline computes `repodomain`
and `base_repo_url` for the duplicate row as well, so a duplicate row
carries a non-null `base_repo_url`. -/
theorem duplicate_rows_still_processed :
    (prepPipeline dupRows).toOption.map
        (fun rs => rs.map fun r =>
          (r.duplicate_flag, r.repodomain, r.domain_extraction_flag, r.base_repo_url)) =
      some [(false, some "github.com", false, some "https://github.com/owner/openai"),
            (true, some "github.com", false, some "https://github.com/owner/openai")] := rfl

/-- A duplicate row whose clone nevertheless ran and succeeded with the
test-file count still at its sentinel. -/
def dupClonedRow : LocalRow :=
  { repourl := "https://github.com/a/b", duplicate_flag := true, null_value_flag := false,
    domain_extraction_flag := false, incomplete_url_flag := false, base_repo_url_flag := false,
    clone_status := some "successful", last_commit_hash := some "abc",
    testfilecountlocal := -1 }

/-- Claim C3 counterexample: on a duplicate row with `clone_status`
successful and an uncounted test-file sentinel, `get_explanation` appends
the clone-derived message after the duplicate message, so the explanation
is not the single highest-precedence tier. -/
theorem clone_tier_leaks_past_duplicate :
    get_explanation dupClonedRow =
      "Row is marked as a duplicate of another entry. | Test files could not be counted." ∧
    get_explanation dupClonedRow ≠ "Row is marked as a duplicate of another entry." := by
  exact ⟨rfl, by decide⟩

/-- Claim C3 (amended): for every row whose `clone_status` is not
"successful", `get_explanation` reports exactly the single
highest-precedence applicable tier, in the order duplicate, null-value,
unsupported-scheme, incomplete, base-extraction-failure,
clone-status-derived, falling back to the no-issues text; messages from
lower tiers never appear. -/
theorem explanation_single_tier (row : LocalRow)
    (h : row.clone_status ≠ some "successful") :
    get_explanation row = specExplanation row := by
  unfold get_explanation specExplanation specTier
  rw [if_neg h]
  split_ifs <;> simp

/-- A row with both the duplicate and the null-value flag set and no clone
status. -/
def dupNullRow : LocalRow :=
  { repourl := "x", duplicate_flag := true, null_value_flag := true,
    domain_extraction_flag := false, incomplete_url_flag := false, base_repo_url_flag := false,
    clone_status := none, last_commit_hash := none, testfilecountlocal := -1 }

/-- Witness for the amended claim C3 at a concrete row: the duplicate tier
wins and the null-value message is suppressed. -/
theorem explanation_single_tier_witness :
    get_explanation dupNullRow = specExplanation dupNullRow ∧
    get_explanation dupNullRow = "Row is marked as a duplicate of another entry." :=
  ⟨explanation_single_tier dupNullRow (by decide), rfl⟩

/-- Claim C6: `is_complete_url` accepts exactly the strings that split into
at least 5 parts after removing trailing slashes, the three boundary
examples behave as claimed, and every non-string input is rejected rather
than raising. -/
theorem is_complete_url_spec :
    (∀ v : PyVal, is_complete_url v = true ↔
      ∃ s : String, v = .pstr s ∧ 5 ≤ (pySplit '/' (pyRstrip '/' s.data)).length) ∧
    is_complete_url (.pstr "https://github.com/owner/repo") = true ∧
    is_complete_url (.pstr "https://github.com/owner") = false ∧
    is_complete_url (.pstr "https://github.com") = false := by
  refine ⟨fun v => ?_, by decide, by decide, by decide⟩
  cases v <;> simp [is_complete_url]

/-- A resumed row: clone succeeded, 5 test files counted, but the commit
hash was never recorded. -/
def resumedRow : DriverRow :=
  { repourl := some "https://github.com/a/b", duplicate_flag := false,
    domain_extraction_flag := false, incomplete_url_flag := false,
    base_repo_url_flag := false, clone_status := some "successful",
    last_commit_hash := none, testfilecountlocal := 5 }

/-- Claim C8 counterexample: a snapshot row with `clone_status` successful
and a non-sentinel test-file count of 5 is still recloned when its commit
hash is missing and the clone directory is absent. -/
theorem reclone_despite_success :
    resumedRow.clone_status = some "successful" ∧
    resumedRow.testfilecountlocal = 5 ∧
    cloneInvoked resumedRow false = true :=
  ⟨rfl, rfl, rfl⟩

/-- Claim C8 (amended): the driver skips the clone call for every row whose
test-file count is non-sentinel and whose last commit hash is recorded,
whatever the clone directory state. -/
theorem no_reclone_when_done (r : DriverRow) (d : Bool)
    (hcount : r.testfilecountlocal ≠ -1)
    (hhash : r.last_commit_hash.isSome = true) :
    cloneInvoked r d = false := by
  have hs : skipProcessed r = true := by simp [skipProcessed, hcount, hhash]
  simp [cloneInvoked, hs]

/-- A fully processed row: count and hash both recorded. -/
def doneRow : DriverRow :=
  { repourl := some "https://github.com/a/b", duplicate_flag := false,
    domain_extraction_flag := false, incomplete_url_flag := false,
    base_repo_url_flag := false, clone_status := some "successful",
    last_commit_hash := some "abc", testfilecountlocal := 5 }

/-- Witness for the amended claim C8 at a concrete fully-processed row. -/
theorem no_reclone_when_done_witness : cloneInvoked doneRow false = false :=
  no_reclone_when_done doneRow false (by decide) (by decide)

/-- Claim C9 (code_bug evaluation): ten consecutive clone failures reach a
counter of 10 with no snapshot save because the failure path continues past
the batch check, while five consecutive fresh successful clones already
trigger a save because each such row increments the counter twice — in
both cases contradicting a save exactly every 10 processed rows. -/
theorem batch_save_miscount :
    driverRun (List.replicate 10 .cloneFailed) 0 = (10, 0) ∧
    driverRun (List.replicate 5 .freshSuccess) 0 = (0, 1) :=
  ⟨rfl, rfl⟩

/-! ### Claims C1, C5, C7, C10 -/

/-- Joining on the separator undoes splitting on it. -/
theorem pyJoin_pySplit (c : Char) (l : List Char) : pyJoin c (pySplit c l) = l :=
  List.intercalate_splitOn l c

/-- Joining a two-element list inserts a single separator. -/
theorem pyJoin_pair (c : Char) (a b : List Char) : pyJoin c [a, b] = a ++ c :: b := by
  simp [pyJoin, List.intercalate, List.intersperse]

/-- Claim C1 counterexample: the code keeps the trailing `.git` of the
example URL; it does not return the stripped form the claim states. -/
theorem no_git_stripping :
    extract_url (.pstr "https://github.com/stalwartlabs/mail-server.git") =
      .ok (some "https://github.com/stalwartlabs/mail-server.git", false) ∧
    some "https://github.com/stalwartlabs/mail-server.git" ≠
      some "https://github.com/stalwartlabs/mail-server" :=
  ⟨rfl, by decide⟩

/-- Claim C1 (amended): the extraction never strips a `.git` suffix — for a
URL whose netloc matches no direct-path platform and whose stripped path
has at least two segments, the result is scheme://netloc/ followed by the
first two path segments verbatim, so a trailing `.git` on the second
segment is preserved (for every host, allow-listed or not). -/
theorem git_suffix_preserved (u p0 p1 : List Char) (rest : List (List Char))
    (hplat : netlocHasPlatform (urlparseL u).netloc = false)
    (hparts : pySplit '/' (pyStrip '/' (urlparseL u).path) = p0 :: p1 :: rest) :
    extractUrlCore u =
      (some ((urlparseL u).scheme ++ "://".data ++ (urlparseL u).netloc ++ "/".data
        ++ (p0 ++ '/' :: p1)), false) := by
  unfold extractUrlCore
  simp only [hplat, hparts, Bool.false_eq_true, if_false, List.length_cons,
    List.take_succ_cons, List.take_zero]
  have hlen : ¬(rest.length + 1 + 1 < 2) := by omega
  rw [if_neg hlen, pyJoin_pair]

/-- Witness for the amended claim C1 at the example URL: the `.git` suffix
survives extraction. -/
theorem git_suffix_preserved_witness :
    extractUrlCore "https://github.com/stalwartlabs/mail-server.git".data =
      (some "https://github.com/stalwartlabs/mail-server.git".data, false) := by
  have h := git_suffix_preserved "https://github.com/stalwartlabs/mail-server.git".data
    "stalwartlabs".data "mail-server.git".data [] (by decide) (by decide)
  rw [h]; rfl

/-- Claim C7 counterexample: `https://codeberg.org/interpeer` has a single
path segment, yet the extraction returns a non-null base URL because the
netloc matches a direct-path platform. -/
theorem direct_platform_short_url_not_null :
    extract_url (.pstr "https://codeberg.org/interpeer") =
      .ok (some "https://codeberg.org/interpeer", false) ∧
    (pySplit '/' (pyStrip '/' (urlparseL "https://codeberg.org/interpeer".data).path)).length
      = 1 :=
  ⟨rfl, rfl⟩

/-- Claim C7 (amended): the extraction returns null with the failure flag
for every falsy input (None, empty string) and for every URL whose netloc
matches no direct-path platform and whose stripped path has fewer than two
segments. -/
theorem short_url_null_base (v : PyVal)
    (h : v.falsy = true ∨
      ∃ s : String, v = .pstr s ∧ bracketsMismatch (urlparseL s.data).netloc = false ∧
        netlocHasPlatform (urlparseL s.data).netloc = false ∧
        (pySplit '/' (pyStrip '/' (urlparseL s.data).path)).length < 2) :
    extract_url v = .ok (none, true) := by
  rcases h with h | ⟨s, rfl, hbr, hplat, hlen⟩
  · simp [extract_url, h]
  · by_cases hf : (PyVal.pstr s).falsy
    · simp [extract_url, hf]
    · simp [extract_url, hf, hbr, extractUrlCore, hplat, hlen]

/-- Witness for the amended claim C7: the claim's concrete example and the
null input both produce a null base URL with the failure flag set. -/
theorem short_url_null_base_witness :
    extract_url (.pstr "https://github.com/namecoin") = .ok (none, true) ∧
    extract_url .pnone = .ok (none, true) :=
  ⟨short_url_null_base _ (Or.inr ⟨_, rfl, by decide, by decide, by decide⟩),
   short_url_null_base _ (Or.inl rfl)⟩

/-- Claim C10: when the netloc merely contains a direct-path platform name
as a substring, the extraction takes the direct-path branch and returns
scheme://netloc/ followed by the entire stripped path, with no
minimum-segment check. -/
theorem substring_platform_direct_path (u : String)
    (hne : u ≠ "")
    (hbr : bracketsMismatch (urlparseL u.data).netloc = false)
    (hplat : netlocHasPlatform (urlparseL u.data).netloc = true) :
    extract_url (.pstr u) =
      .ok (some ⟨(urlparseL u.data).scheme ++ "://".data ++ (urlparseL u.data).netloc
        ++ "/".data ++ pyStrip '/' (urlparseL u.data).path⟩, false) := by
  have hf : (PyVal.pstr u).falsy = false := by simp [PyVal.falsy, hne]
  simp [extract_url, hf, hbr, extractUrlCore, hplat, pyJoin_pySplit]

/-- Witness for claim C10: a host that merely contains `gitlab.com` takes
the direct-path branch even with a single path segment. -/
theorem substring_platform_direct_path_witness :
    extract_url (.pstr "https://mygitlab.com.example.org/a") =
      .ok (some "https://mygitlab.com.example.org/a", false) := by
  have h := substring_platform_direct_path "https://mygitlab.com.example.org/a"
    (by decide) (by decide) (by decide)
  rw [h]; rfl

/-- Claim C5 counterexample: a truthy non-string input makes `get_domain`
raise an AttributeError inside `urlparse` instead of recovering with a
null domain and the unsupported flag. -/
theorem get_domain_raises_on_nonstring :
    get_domain (.pint 12345) = .error .attributeError ∧
    get_domain (.pint 12345) ≠ .ok none :=
  ⟨rfl, by
    intro h
    have h2 : (Except.error PyErr.attributeError : Except PyErr (Option String)) = .ok none := h
    exact Except.noConfusion h2⟩

/-- Claim C5 (amended): on every string the classification returns — without
raising — the lowercased hostname when the scheme is http, https or git,
and a null domain otherwise (other scheme, missing scheme, or empty netloc
as in `http:///bad-url.com`); a falsy non-string such as None is coerced to
the empty string and classified as null/unsupported; but truthy non-string
inputs raise instead of being flagged. -/
theorem scheme_domain_classification :
    (∀ u : String, bracketsMismatch (urlparseL u.data).netloc = false →
      get_domain (.pstr u) =
        .ok (if schemeSupported (urlparseL u.data).scheme = true
             then (hostnameOf (urlparseL u.data).netloc).map (fun h => (⟨h⟩ : String))
             else none)) ∧
    get_domain (.pstr "https://GitHub.com/OpenAI") = .ok (some "github.com") ∧
    get_domain (.pstr "git://example.org/repo.git") = .ok (some "example.org") ∧
    get_domain (.pstr "ftp://example.net/resource") = .ok none ∧
    get_domain (.pstr "http:///bad-url.com") = .ok none ∧
    get_domain .pnone = .ok none := by
  refine ⟨fun u hbr => ?_, rfl, rfl, rfl, rfl, rfl⟩
  simp only [get_domain, urlparsePy, coerceUrlArg, hbr, Bool.false_eq_true, if_false,
    bind, Except.bind, pure, Except.pure]
  split <;> rfl

/-- Witness for the amended claim C5 at a concrete string URL. -/
theorem scheme_domain_classification_witness :
    get_domain (.pstr "https://github.com/openai") = .ok (some "github.com") := by
  have h := scheme_domain_classification.1 "https://github.com/openai" (by decide)
  rw [h]; rfl

/-! ### Character-level lemmas for the idempotence analysis (claim C4) -/

/-- All members of a takeWhile prefix satisfy the predicate; for `takeUntil`
this means they differ from the delimiter. -/
theorem mem_takeUntil_ne {c a : Char} {l : List Char} (h : a ∈ takeUntil c l) : a ≠ c := by
  have := List.mem_takeWhile_imp h
  simpa using this

/-- A takeUntil prefix is contained in the original list. -/
theorem takeUntil_subset {c a : Char} {l : List Char} (h : a ∈ takeUntil c l) : a ∈ l :=
  (List.takeWhile_sublist _).subset h

/-- The part after the first delimiter is contained in the original list. -/
theorem dropPast_subset {c a : Char} {l : List Char} (h : a ∈ dropPast c l) : a ∈ l := by
  unfold dropPast at h
  split at h
  · simp at h
  · next heq =>
    exact (List.dropWhile_sublist _).subset (heq ▸ List.mem_cons_of_mem _ h)

/-- When no member of the list equals the delimiter, `dropPast` is empty. -/
theorem dropPast_none {c : Char} {l : List Char} (h : ∀ a ∈ l, a ≠ c) : dropPast c l = [] := by
  unfold dropPast
  have hd : l.dropWhile (fun x => decide (x ≠ c)) = [] :=
    List.dropWhile_eq_nil_iff.mpr (fun x hx => by simpa using h x hx)
  split
  · rfl
  · next b t heq => rw [hd] at heq; exact absurd heq (by simp)

/-- When every member satisfies the predicate, takeWhile is the identity. -/
theorem takeUntil_all {c : Char} {l : List Char} (h : ∀ a ∈ l, a ≠ c) : takeUntil c l = l :=
  List.takeWhile_eq_self_iff.mpr (fun x hx => by simpa using h x hx)

/-- The rest after the scheme split is contained in the input. -/
theorem splitScheme_snd_subset {a : Char} {l : List Char} (h : a ∈ (splitScheme l).2) : a ∈ l := by
  unfold splitScheme at h
  split at h
  · dsimp only at h
    split at h
    · exact dropPast_subset h
    · exact h
  · exact h

/-- Netloc members pass the netloc-delimiter test and come from the input. -/
theorem splitNetlocStep_fst_mem {a : Char} {l : List Char} (h : a ∈ (splitNetlocStep l).1) :
    notNetlocDelim a = true ∧ a ∈ l := by
  unfold splitNetlocStep at h
  split at h
  · exact ⟨List.mem_takeWhile_imp h,
      List.mem_cons_of_mem _ (List.mem_cons_of_mem _ ((List.takeWhile_sublist _).subset h))⟩
  · simp at h

/-- The rest after the netloc split is contained in the input. -/
theorem splitNetlocStep_snd_subset {a : Char} {l : List Char} (h : a ∈ (splitNetlocStep l).2) :
    a ∈ l := by
  unfold splitNetlocStep at h
  split at h
  · exact List.mem_cons_of_mem _ (List.mem_cons_of_mem _ ((List.dropWhile_sublist _).subset h))
  · exact h

/-- Members of the pieces of `splitOnP` fail the predicate and come from the
input list. -/
theorem splitOnP_pieces (p : Char → Bool) :
    ∀ (l : List Char), ∀ x ∈ l.splitOnP p, ∀ a ∈ x, p a = false ∧ a ∈ l := by
  intro l
  induction l with
  | nil =>
    intro x hx a ha
    rw [List.splitOnP_nil] at hx
    simp at hx
    subst hx
    simp at ha
  | cons b t ih =>
    intro x hx a ha
    rw [List.splitOnP_cons] at hx
    by_cases hb : p b = true
    · rw [if_pos hb] at hx
      rcases List.mem_cons.mp hx with rfl | hx2
      · simp at ha
      · obtain ⟨h1, h2⟩ := ih x hx2 a ha
        exact ⟨h1, List.mem_cons_of_mem _ h2⟩
    · rw [if_neg hb] at hx
      rcases hrec : t.splitOnP p with _ | ⟨hd, tl⟩
      · exact absurd hrec (List.splitOnP_ne_nil _ _)
      · rw [hrec, List.modifyHead_cons] at hx
        rcases List.mem_cons.mp hx with rfl | hx2
        · rcases List.mem_cons.mp ha with rfl | ha2
          · exact ⟨Bool.eq_false_iff.mpr hb, List.mem_cons_self _ _⟩
          · obtain ⟨h1, h2⟩ := ih hd (hrec ▸ List.mem_cons_self _ _) a ha2
            exact ⟨h1, List.mem_cons_of_mem _ h2⟩
        · obtain ⟨h1, h2⟩ := ih x (hrec ▸ List.mem_cons_of_mem _ hx2) a ha
          exact ⟨h1, List.mem_cons_of_mem _ h2⟩

/-- Pieces of a Python split never contain the separator and their members
come from the input. -/
theorem pySplit_pieces {c : Char} {l x : List Char} (hx : x ∈ pySplit c l) :
    c ∉ x ∧ ∀ a ∈ x, a ∈ l := by
  have h : ∀ a ∈ x, (a == c) = false ∧ a ∈ l := splitOnP_pieces (· == c) l x hx
  constructor
  · intro hc
    have := (h c hc).1
    simp at this
  · intro a ha
    exact (h a ha).2

/-- A split has at least two pieces only when the separator occurs. -/
theorem pySplit_length_ge_two {c : Char} {l : List Char}
    (h : 2 ≤ (pySplit c l).length) : c ∈ l := by
  by_contra hc
  have : pySplit c l = [l] :=
    List.splitOnP_eq_single _ _ (fun x hx hpx => hc (by simpa using (eq_of_beq hpx) ▸ hx))
  rw [this] at h
  simp at h

/-- The head of an lstripped list is never the strip character. -/
theorem pyLstrip_head {c : Char} (l : List Char) : (pyLstrip c l).head? ≠ some c := by
  induction l with
  | nil => simp [pyLstrip]
  | cons a t ih =>
    by_cases h : a = c
    · simpa [pyLstrip, List.dropWhile_cons, h] using ih
    · simp [pyLstrip, List.dropWhile_cons, h]

/-- The last element of an rstripped list is never the strip character. -/
theorem pyRstrip_last {c : Char} (l : List Char) : (pyRstrip c l).getLast? ≠ some c := by
  unfold pyRstrip
  rw [List.getLast?_reverse]
  exact pyLstrip_head l.reverse

/-- An rstripped list followed by the stripped suffix gives back the list. -/
theorem pyRstrip_append (c : Char) (l : List Char) :
    pyRstrip c l ++ (l.reverse.takeWhile (· = c)).reverse = l := by
  unfold pyRstrip
  rw [← List.reverse_append, List.takeWhile_append_dropWhile, List.reverse_reverse]

/-- Rstripping does not introduce a strip character at the head. -/
theorem pyRstrip_head {c : Char} (l : List Char) (h : l.head? ≠ some c) :
    (pyRstrip c l).head? ≠ some c := by
  intro hc
  apply h
  rw [← pyRstrip_append c l, List.head?_append, hc]
  rfl

/-- The head of a stripped list is never the strip character. -/
theorem pyStrip_head {c : Char} (l : List Char) : (pyStrip c l).head? ≠ some c :=
  pyRstrip_head _ (pyLstrip_head l)

/-- The last element of a stripped list is never the strip character. -/
theorem pyStrip_last {c : Char} (l : List Char) : (pyStrip c l).getLast? ≠ some c :=
  pyRstrip_last _

/-- Lstripping a list whose head is not the strip character changes nothing. -/
theorem pyLstrip_noop {c : Char} {l : List Char} (h : l.head? ≠ some c) : pyLstrip c l = l := by
  cases l with
  | nil => rfl
  | cons a t =>
    have ha : ¬(a = c) := fun hac => h (by rw [List.head?_cons, hac])
    simp [pyLstrip, List.dropWhile_cons, ha]

/-- Rstripping a list whose last element is not the strip character changes
nothing. -/
theorem pyRstrip_noop {c : Char} {l : List Char} (h : l.getLast? ≠ some c) : pyRstrip c l = l := by
  have h2 : l.reverse.head? ≠ some c := by rwa [List.head?_reverse]
  show (pyLstrip c l.reverse).reverse = l
  rw [pyLstrip_noop h2, List.reverse_reverse]

/-- Stripping a list with clean ends changes nothing. -/
theorem pyStrip_noop {c : Char} {l : List Char} (h1 : l.head? ≠ some c)
    (h2 : l.getLast? ≠ some c) : pyStrip c l = l := by
  unfold pyStrip
  rw [pyLstrip_noop h1, pyRstrip_noop h2]

/-- A leading strip character is absorbed. -/
theorem pyStrip_cons (c : Char) (x : List Char) : pyStrip c (c :: x) = pyStrip c x := by
  unfold pyStrip
  congr 1
  simp [pyLstrip, List.dropWhile_cons]

/-- Stripping is idempotent. -/
theorem pyStrip_idem (c : Char) (l : List Char) : pyStrip c (pyStrip c l) = pyStrip c l :=
  pyStrip_noop (pyStrip_head l) (pyStrip_last l)

/-- Members of a stripped list come from the original list. -/
theorem pyStrip_subset {c a : Char} {l : List Char} (h : a ∈ pyStrip c l) : a ∈ l := by
  unfold pyStrip pyRstrip pyLstrip at h
  have h1 := (List.dropWhile_sublist _).subset (List.mem_reverse.mp h)
  have h2 := (List.dropWhile_sublist _).subset (List.mem_reverse.mp h1)
  exact h2

/-- Stripping a two-piece join whose pieces avoid the separator changes
nothing. -/
theorem pyStrip_join_two {p0 p1 : List Char} (hp0 : p0 ≠ []) (h0 : '/' ∉ p0)
    (hp1 : p1 ≠ []) (h1 : '/' ∉ p1) :
    pyStrip '/' (p0 ++ '/' :: p1) = p0 ++ '/' :: p1 := by
  apply pyStrip_noop
  · cases p0 with
    | nil => exact absurd rfl hp0
    | cons a t =>
      intro hc
      simp only [List.cons_append, List.head?_cons, Option.some.injEq] at hc
      exact h0 (hc ▸ List.mem_cons_self _ _)
  · rw [List.getLast?_append]
    intro hc
    cases p1 with
    | nil => exact absurd rfl hp1
    | cons b t =>
      rw [List.getLast?_cons_cons] at hc
      rcases hlast : (b :: t).getLast? with _ | x
      · exact absurd hlast (by simp [List.getLast?_eq_none_iff])
      · rw [hlast] at hc
        have hx : x = '/' := by simpa [Option.or] using hc
        exact h1 (hx ▸ List.mem_of_mem_getLast? (hlast ▸ rfl))

/-- The first piece of a split of a list not starting with the separator is
nonempty. -/
theorem pySplit_head_ne_nil {c : Char} {l p0 : List Char} {rest : List (List Char)}
    (hne : l ≠ []) (hhead : l.head? ≠ some c) (h : pySplit c l = p0 :: rest) : p0 ≠ [] := by
  cases l with
  | nil => exact absurd rfl hne
  | cons b t =>
    have hb : ¬((b == c) = true) := by
      simp only [List.head?_cons] at hhead
      simpa using fun hbc => hhead (by rw [hbc])
    rw [show pySplit c (b :: t) = (b :: t).splitOnP (· == c) from rfl,
      List.splitOnP_cons, if_neg hb] at h
    rcases hrec : t.splitOnP (· == c) with _ | ⟨hd, tl⟩
    · exact absurd hrec (List.splitOnP_ne_nil _ _)
    · rw [hrec, List.modifyHead_cons] at h
      injection h with h1 h2
      rw [← h1]
      exact List.cons_ne_nil _ _

/-- A member of a Python join is the separator or a member of some piece. -/
theorem mem_pyJoin {c a : Char} : ∀ {ls : List (List Char)}, a ∈ pyJoin c ls →
    a = c ∨ ∃ x ∈ ls, a ∈ x := by
  intro ls
  induction ls with
  | nil => intro h; simp [pyJoin, List.intercalate] at h
  | cons x xs ih =>
    intro h
    cases xs with
    | nil =>
      simp only [pyJoin, List.intercalate, List.intersperse_single, List.flatten_cons,
        List.flatten_nil, List.append_nil] at h
      exact Or.inr ⟨x, List.mem_cons_self _ _, h⟩
    | cons y ys =>
      have hstep : pyJoin c (x :: y :: ys) = x ++ c :: pyJoin c (y :: ys) := by
        simp [pyJoin, List.intercalate, List.intersperse_cons₂]
      rw [hstep] at h
      rcases List.mem_append.mp h with hx | hcons
      · exact Or.inr ⟨x, List.mem_cons_self _ _, hx⟩
      · rcases List.mem_cons.mp hcons with rfl | hrest
        · exact Or.inl rfl
        · rcases ih hrest with h1 | ⟨z, hz, haz⟩
          · exact Or.inl h1
          · exact Or.inr ⟨z, List.mem_cons_of_mem _ hz, haz⟩

/-- The default value of getLastD on a nonempty list is a member. -/
theorem getLastD_mem {l : List (List Char)} (h : l ≠ []) : l.getLastD [] ∈ l := by
  rw [List.getLastD_eq_getLast?]
  cases hl : l.getLast? with
  | none => exact absurd (List.getLast?_eq_none_iff.mp hl) h
  | some x => simpa using List.mem_of_mem_getLast? (hl ▸ rfl)

/-- The path kept by the params split is contained in the input path. -/
theorem splitParamsP_fst_subset {a : Char} {l : List Char} (h : a ∈ (splitParamsP l).1) :
    a ∈ l := by
  unfold splitParamsP at h
  dsimp only at h
  split at h
  · rcases hps : pySplit '/' l with _ | ⟨p, ps⟩
    · exact absurd hps (by simpa [pySplit, List.splitOn] using List.splitOnP_ne_nil (· == '/') l)
    · rw [hps] at h
      cases ps with
      | nil =>
        simp only [List.dropLast_single, List.nil_append, List.getLastD_eq_getLast?,
          List.getLast?_singleton, Option.getD_some] at h
        have hp : a ∈ takeUntil ';' p := by
          simpa [pyJoin, List.intercalate] using h
        exact (pySplit_pieces (hps ▸ List.mem_cons_self p [])).2 a (takeUntil_subset hp)
      | cons q qs =>
        have hslash : '/' ∈ l := pySplit_length_ge_two (by rw [hps]; simp)
        rcases mem_pyJoin h with rfl | ⟨x, hx, hax⟩
        · exact hslash
        · rcases List.mem_append.mp hx with hx1 | hx2
          · have hxp : x ∈ pySplit '/' l := hps ▸ (List.dropLast_sublist _).subset hx1
            exact (pySplit_pieces hxp).2 a hax
          · have hx3 : x = takeUntil ';' ((p :: q :: qs).getLastD []) := by simpa using hx2
            have hlmem : (p :: q :: qs).getLastD [] ∈ pySplit '/' l := by
              rw [hps]; exact getLastD_mem (List.cons_ne_nil _ _)
            exact (pySplit_pieces hlmem).2 a (takeUntil_subset (hx3 ▸ hax))
  · exact h

/-- Characters of the sanitised URL are kept characters. -/
theorem sanitize_keep {a : Char} {l : List Char} (h : a ∈ sanitizeUrl l) : keepChar a = true :=
  (List.mem_filter.mp h).2

/-- The netloc component of a parse, unfolded. -/
theorem urlparseL_netloc (l : List Char) :
    (urlparseL l).netloc = (splitNetlocStep (splitScheme (sanitizeUrl l)).2).1 := rfl

/-- The scheme component of a parse, unfolded. -/
theorem urlparseL_scheme (l : List Char) :
    (urlparseL l).scheme = (splitScheme (sanitizeUrl l)).1 := rfl

/-- The path component of a parse, unfolded. -/
theorem urlparseL_path (l : List Char) :
    (urlparseL l).path =
      (splitParamsP (takeUntil '?'
        (takeUntil '#' (splitNetlocStep (splitScheme (sanitizeUrl l)).2).2))).1 := rfl

/-- Netloc characters of a parse pass the delimiter test and survive
sanitisation. -/
theorem urlparse_netloc_mem {a : Char} {l : List Char} (h : a ∈ (urlparseL l).netloc) :
    notNetlocDelim a = true ∧ keepChar a = true := by
  rw [urlparseL_netloc] at h
  obtain ⟨h1, h2⟩ := splitNetlocStep_fst_mem h
  exact ⟨h1, sanitize_keep (splitScheme_snd_subset h2)⟩

/-- Path characters of a parse are not fragment or query delimiters and
survive sanitisation. -/
theorem urlparse_path_mem {a : Char} {l : List Char} (h : a ∈ (urlparseL l).path) :
    a ≠ '#' ∧ a ≠ '?' ∧ keepChar a = true := by
  rw [urlparseL_path] at h
  have h1 := splitParamsP_fst_subset h
  have h2 : a ≠ '?' := mem_takeUntil_ne h1
  have h3 := takeUntil_subset h1
  have h4 : a ≠ '#' := mem_takeUntil_ne h3
  have h5 := sanitize_keep (splitScheme_snd_subset (splitNetlocStep_snd_subset
    (takeUntil_subset h3)))
  exact ⟨h4, h2, h5⟩

/-- Mapping a function that fixes every member is the identity. -/
theorem map_fix {f : Char → Char} : ∀ {l : List Char}, (∀ a ∈ l, f a = a) → l.map f = l := by
  intro l h
  induction l with
  | nil => rfl
  | cons a t ih =>
    simp only [List.map_cons, h a (List.mem_cons_self _ _), List.cons.injEq, true_and]
    exact ih (fun b hb => h b (List.mem_cons_of_mem _ hb))

/-- Parsing a rebuilt URL `scheme://netloc/base` recovers its components:
generic version, with the scheme given in head-tail form and explicit
character-level hypotheses. -/
theorem urlparse_rebuilt_gen (c0 : Char) (scht nl base : List Char)
    (hc0a : c0.isAlpha = true) (hc0n : 32 < c0.toNat)
    (hsc : ∀ c ∈ c0 :: scht, c ≠ ':' ∧ isSchemeChar c = true ∧ keepChar c = true ∧ c.toLower = c)
    (hnl : ∀ c ∈ nl, notNetlocDelim c = true)
    (hnlk : ∀ c ∈ nl, keepChar c = true)
    (hbase : ∀ c ∈ base, c ≠ '#' ∧ c ≠ '?' ∧ keepChar c = true)
    (hsemi : ';' ∉ base) :
    urlparseL ((c0 :: scht) ++ "://".data ++ nl ++ "/".data ++ base) =
      ⟨c0 :: scht, nl, '/' :: base, [], [], []⟩ := by
  have hshape : (c0 :: scht) ++ "://".data ++ nl ++ "/".data ++ base =
      c0 :: (scht ++ ':' :: '/' :: '/' :: (nl ++ '/' :: base)) := by
    show (c0 :: scht) ++ [':', '/', '/'] ++ nl ++ ['/'] ++ base = _
    simp [List.append_assoc]
  have hkeepAll : ∀ a ∈ c0 :: (scht ++ ':' :: '/' :: '/' :: (nl ++ '/' :: base)),
      keepChar a = true := by
    intro a ha
    rcases List.mem_cons.mp ha with rfl | ha
    · exact (hsc _ (List.mem_cons_self _ _)).2.2.1
    · rcases List.mem_append.mp ha with ha | ha
      · exact (hsc a (List.mem_cons_of_mem _ ha)).2.2.1
      · rcases List.mem_cons.mp ha with rfl | ha
        · decide
        · rcases List.mem_cons.mp ha with rfl | ha
          · decide
          · rcases List.mem_cons.mp ha with rfl | ha
            · decide
            · rcases List.mem_append.mp ha with ha | ha
              · exact hnlk a ha
              · rcases List.mem_cons.mp ha with rfl | ha
                · decide
                · exact (hbase a ha).2.2
  have hsan : sanitizeUrl ((c0 :: scht) ++ "://".data ++ nl ++ "/".data ++ base) =
      c0 :: (scht ++ ':' :: '/' :: '/' :: (nl ++ '/' :: base)) := by
    rw [hshape]
    unfold sanitizeUrl
    rw [List.dropWhile_cons_of_neg (by simpa using Nat.not_le.mpr hc0n)]
    exact List.filter_eq_self.mpr hkeepAll
  have hschemeAll : ∀ a ∈ c0 :: scht, (fun x => decide (x ≠ ':')) a = true := by
    intro a ha
    simpa using (hsc a ha).1
  have hcolon : (c0 :: (scht ++ ':' :: '/' :: '/' :: (nl ++ '/' :: base))).contains ':' = true := by
    apply List.elem_iff.mpr
    simp
  have htakeU : takeUntil ':' (c0 :: (scht ++ ':' :: '/' :: '/' :: (nl ++ '/' :: base))) =
      c0 :: scht := by
    unfold takeUntil
    rw [← List.cons_append, List.takeWhile_append_of_pos hschemeAll,
      List.takeWhile_cons_of_neg (by simp)]
    simp
  have hdropP : dropPast ':' (c0 :: (scht ++ ':' :: '/' :: '/' :: (nl ++ '/' :: base))) =
      '/' :: '/' :: (nl ++ '/' :: base) := by
    unfold dropPast
    rw [← List.cons_append, List.dropWhile_append_of_pos hschemeAll,
      List.dropWhile_cons_of_neg (by simp)]
  have hsplitScheme : splitScheme (c0 :: (scht ++ ':' :: '/' :: '/' :: (nl ++ '/' :: base))) =
      (c0 :: scht, '/' :: '/' :: (nl ++ '/' :: base)) := by
    unfold splitScheme
    rw [if_pos hcolon]
    dsimp only
    rw [htakeU, hdropP]
    rw [if_pos (by
      simp only [Bool.and_eq_true]
      exact ⟨hc0a, List.all_eq_true.mpr (fun c hc => (hsc c hc).2.1)⟩)]
    rw [map_fix (fun a ha => (hsc a ha).2.2.2)]
  have hnet : splitNetlocStep ('/' :: '/' :: (nl ++ '/' :: base)) = (nl, '/' :: base) := by
    show (List.takeWhile notNetlocDelim (nl ++ '/' :: base),
      List.dropWhile notNetlocDelim (nl ++ '/' :: base)) = (nl, '/' :: base)
    rw [List.takeWhile_append_of_pos hnl, List.dropWhile_append_of_pos hnl,
      List.takeWhile_cons_of_neg (by decide), List.dropWhile_cons_of_neg (by decide)]
    simp
  have hbaseSlashH : ∀ a ∈ '/' :: base, a ≠ '#' := by
    intro a ha
    rcases List.mem_cons.mp ha with rfl | ha
    · decide
    · exact (hbase a ha).1
  have hbaseSlashQ : ∀ a ∈ '/' :: base, a ≠ '?' := by
    intro a ha
    rcases List.mem_cons.mp ha with rfl | ha
    · decide
    · exact (hbase a ha).2.1
  have htake1 : takeUntil '#' ('/' :: base) = '/' :: base := takeUntil_all hbaseSlashH
  have hdrop1 : dropPast '#' ('/' :: base) = [] := dropPast_none hbaseSlashH
  have htake2 : takeUntil '?' ('/' :: base) = '/' :: base := takeUntil_all hbaseSlashQ
  have hdrop2 : dropPast '?' ('/' :: base) = [] := dropPast_none hbaseSlashQ
  have hparams : splitParamsP ('/' :: base) = ('/' :: base, []) := by
    unfold splitParamsP
    dsimp only
    rw [if_neg ?_]
    case _ =>
      intro hc
      have hne : pySplit '/' ('/' :: base) ≠ [] :=
        List.splitOnP_ne_nil (· == '/') ('/' :: base)
      have hmem : ';' ∈ (pySplit '/' ('/' :: base)).getLastD [] := List.elem_iff.mp hc
      have hin := (pySplit_pieces (getLastD_mem hne)).2 ';' hmem
      rcases List.mem_cons.mp hin with h | h
      · exact absurd h (by decide)
      · exact hsemi h
  unfold urlparseL
  rw [hsan]
  dsimp only
  rw [hsplitScheme]
  dsimp only
  rw [hnet]
  dsimp only
  rw [htake1, htake2, hdrop1, hdrop2, hparams]

/-- Parsing a rebuilt URL `scheme://netloc/base` recovers its components
when the scheme is one of the supported ones. -/
theorem urlparse_rebuilt (sch nl base : List Char)
    (hsch : schemeSupported sch = true)
    (hnl : ∀ c ∈ nl, notNetlocDelim c = true)
    (hnlk : ∀ c ∈ nl, keepChar c = true)
    (hbase : ∀ c ∈ base, c ≠ '#' ∧ c ≠ '?' ∧ keepChar c = true)
    (hsemi : ';' ∉ base) :
    urlparseL (sch ++ "://".data ++ nl ++ "/".data ++ base) =
      ⟨sch, nl, '/' :: base, [], [], []⟩ := by
  have h3 : (sch = ['h', 't', 't', 'p'] ∨ sch = ['h', 't', 't', 'p', 's']) ∨
      sch = ['g', 'i', 't'] := by
    simpa [schemeSupported] using hsch
  rcases h3 with (h | h) | h <;> subst h
  · exact urlparse_rebuilt_gen 'h' ['t', 't', 'p'] nl base (by decide) (by decide)
      (by decide) hnl hnlk hbase hsemi
  · exact urlparse_rebuilt_gen 'h' ['t', 't', 'p', 's'] nl base (by decide) (by decide)
      (by decide) hnl hnlk hbase hsemi
  · exact urlparse_rebuilt_gen 'g' ['i', 't'] nl base (by decide) (by decide)
      (by decide) hnl hnlk hbase hsemi

/-- Idempotence core: on a successful extraction with a supported scheme, a
semicolon-free path and a nonempty second path segment, re-running the
extraction core on the output returns it unchanged; the output is nonempty
and parses back to the same netloc. -/
theorem extract_core_idem (u : List Char)
    (hsch : schemeSupported (urlparseL u).scheme = true)
    (hsemi : ';' ∉ (urlparseL u).path)
    (hseg : (pySplit '/' (pyStrip '/' (urlparseL u).path)).get? 1 ≠ some ([] : List Char))
    (l : List Char) (h : extractUrlCore u = (some l, false)) :
    extractUrlCore l = (some l, false) ∧ l ≠ [] ∧
      (urlparseL l).netloc = (urlparseL u).netloc := by
  have hnl : ∀ c ∈ (urlparseL u).netloc, notNetlocDelim c = true :=
    fun c hc => (urlparse_netloc_mem hc).1
  have hnlk : ∀ c ∈ (urlparseL u).netloc, keepChar c = true :=
    fun c hc => (urlparse_netloc_mem hc).2
  have hdata : "://".data = [':', '/', '/'] := rfl
  by_cases hplat : netlocHasPlatform (urlparseL u).netloc = true
  · have hcore : extractUrlCore u =
        (some ((urlparseL u).scheme ++ "://".data ++ (urlparseL u).netloc ++ "/".data ++
          pyStrip '/' (urlparseL u).path), false) := by
      simp only [extractUrlCore]
      rw [hplat, if_pos rfl, pyJoin_pySplit]
    rw [hcore] at h
    have hl : (urlparseL u).scheme ++ "://".data ++ (urlparseL u).netloc ++ "/".data ++
        pyStrip '/' (urlparseL u).path = l := Option.some.inj (congrArg Prod.fst h)
    subst hl
    have hbase : ∀ c ∈ pyStrip '/' (urlparseL u).path, c ≠ '#' ∧ c ≠ '?' ∧ keepChar c = true :=
      fun c hc => urlparse_path_mem (pyStrip_subset hc)
    have hsemi0 : ';' ∉ pyStrip '/' (urlparseL u).path := fun hc => hsemi (pyStrip_subset hc)
    have hrt := urlparse_rebuilt _ _ _ hsch hnl hnlk hbase hsemi0
    refine ⟨?_, ?_, ?_⟩
    · simp only [extractUrlCore, hrt]
      rw [pyStrip_cons, pyStrip_idem, hplat, if_pos rfl, pyJoin_pySplit]
    · intro h0
      rw [hdata] at h0
      simp [List.append_eq_nil] at h0
    · rw [hrt]
  · rw [Bool.not_eq_true] at hplat
    have hcore0 : extractUrlCore u =
        (if (pySplit '/' (pyStrip '/' (urlparseL u).path)).length < 2 then
          ((none : Option (List Char)), true)
         else (some ((urlparseL u).scheme ++ "://".data ++ (urlparseL u).netloc ++ "/".data ++
           pyJoin '/' ((pySplit '/' (pyStrip '/' (urlparseL u).path)).take 2)), false)) := by
      simp only [extractUrlCore]
      rw [hplat]
      simp
    rw [hcore0] at h
    rcases hp : pySplit '/' (pyStrip '/' (urlparseL u).path) with _ | ⟨p0, ps⟩
    · exact absurd hp (List.splitOnP_ne_nil _ _)
    · cases ps with
      | nil =>
        rw [hp] at h
        simp at h
      | cons p1 rest =>
        rw [hp] at h
        have hlen : ¬((p0 :: p1 :: rest).length < 2) := by
          simp only [List.length_cons]
          omega
        rw [if_neg hlen] at h
        simp only [List.take_succ_cons, List.take_zero] at h
        rw [pyJoin_pair] at h
        have hl : (urlparseL u).scheme ++ "://".data ++ (urlparseL u).netloc ++ "/".data ++
            (p0 ++ '/' :: p1) = l := Option.some.inj (congrArg Prod.fst h)
        subst hl
        have hp0mem : p0 ∈ pySplit '/' (pyStrip '/' (urlparseL u).path) := by
          rw [hp]; exact List.mem_cons_self _ _
        have hp1mem : p1 ∈ pySplit '/' (pyStrip '/' (urlparseL u).path) := by
          rw [hp]; exact List.mem_cons_of_mem _ (List.mem_cons_self _ _)
        obtain ⟨hp0sl, hp0sub⟩ := pySplit_pieces hp0mem
        obtain ⟨hp1sl, hp1sub⟩ := pySplit_pieces hp1mem
        have hp1ne : p1 ≠ [] := by
          intro h0
          rw [hp] at hseg
          exact hseg (by rw [h0]; rfl)
        have hpath0ne : pyStrip '/' (urlparseL u).path ≠ [] := by
          intro h0
          rw [h0] at hp
          simp [pySplit, List.splitOn] at hp
        have hp0ne : p0 ≠ [] := pySplit_head_ne_nil hpath0ne (pyStrip_head _) hp
        have hbase : ∀ c ∈ p0 ++ '/' :: p1, c ≠ '#' ∧ c ≠ '?' ∧ keepChar c = true := by
          intro c hc
          rcases List.mem_append.mp hc with hc | hc
          · exact urlparse_path_mem (pyStrip_subset (hp0sub c hc))
          · rcases List.mem_cons.mp hc with rfl | hc
            · exact ⟨by decide, by decide, by decide⟩
            · exact urlparse_path_mem (pyStrip_subset (hp1sub c hc))
        have hsemi0 : ';' ∉ p0 ++ '/' :: p1 := by
          intro hc
          rcases List.mem_append.mp hc with hc | hc
          · exact hsemi (pyStrip_subset (hp0sub _ hc))
          · rcases List.mem_cons.mp hc with hcc | hc
            · exact absurd hcc (by decide)
            · exact hsemi (pyStrip_subset (hp1sub _ hc))
        have hrt := urlparse_rebuilt _ _ _ hsch hnl hnlk hbase hsemi0
        have hsplit2 : pySplit '/' (p0 ++ '/' :: p1) = [p0, p1] := by
          have hjoin : pyJoin '/' [p0, p1] = p0 ++ '/' :: p1 := pyJoin_pair '/' p0 p1
          rw [← hjoin]
          exact List.splitOn_intercalate [p0, p1] '/'
            (by
              intro x hx
              rcases List.mem_cons.mp hx with rfl | hx
              · exact hp0sl
              · rcases List.mem_cons.mp hx with rfl | hx
                · exact hp1sl
                · simp at hx)
            (by simp)
        refine ⟨?_, ?_, ?_⟩
        · simp only [extractUrlCore, hrt]
          rw [pyStrip_cons, pyStrip_join_two hp0ne hp0sl hp1ne hp1sl, hsplit2, hplat]
          simp [pyJoin_pair]
        · intro h0
          rw [hdata] at h0
          simp [List.append_eq_nil] at h0
        · rw [hrt]

/-- Claim C4 counterexample: the complete, https URL
`https://github.com/a//b` has an empty second path segment; extraction
returns `https://github.com/a/`, and re-running the extraction on that
output returns null — not the same value — so the canonical form is not a
fixed point. -/
theorem extraction_not_idempotent :
    is_complete_url (.pstr "https://github.com/a//b") = true ∧
    schemeSupported (urlparseL "https://github.com/a//b".data).scheme = true ∧
    extract_url (.pstr "https://github.com/a//b") =
      .ok (some "https://github.com/a/", false) ∧
    extract_url (.pstr "https://github.com/a/") = .ok (none, true) :=
  ⟨by decide, by decide, rfl, rfl⟩

/-- Claim C4 (amended): for every complete, scheme-supported URL whose
parsed path contains no semicolon and whose second path segment is not
empty, a successful base-URL extraction is a fixed point: re-running the
extraction on the extracted value returns it unchanged. -/
theorem base_url_extraction_idempotent (u s : String)
    (_hcomp : is_complete_url (.pstr u) = true)
    (hsch : schemeSupported (urlparseL u.data).scheme = true)
    (hsemi : ';' ∉ (urlparseL u.data).path)
    (hseg : (pySplit '/' (pyStrip '/' (urlparseL u.data).path)).get? 1 ≠ some ([] : List Char))
    (h : extract_url (.pstr u) = .ok (some s, false)) :
    extract_url (.pstr s) = .ok (some s, false) := by
  by_cases hf : (PyVal.pstr u).falsy = true
  · rw [extract_url, if_pos hf] at h
    simp at h
  · rw [extract_url, if_neg hf] at h
    by_cases hbr : bracketsMismatch (urlparseL u.data).netloc = true
    · rw [if_pos hbr] at h
      simp at h
    · rw [if_neg hbr] at h
      have h2 : ((extractUrlCore u.data).1.map (fun l => (⟨l⟩ : String)),
          (extractUrlCore u.data).2) = (some s, false) := Except.ok.inj h
      have hsnd : (extractUrlCore u.data).2 = false := congrArg Prod.snd h2
      have hfst : (extractUrlCore u.data).1.map (fun l => (⟨l⟩ : String)) = some s :=
        congrArg Prod.fst h2
      rcases ho : (extractUrlCore u.data).1 with _ | ldata
      · rw [ho] at hfst
        simp at hfst
      · rw [ho] at hfst
        simp only [Option.map_some'] at hfst
        have hsd : s.data = ldata := by
          rw [← Option.some.inj hfst]
        have hcoreu : extractUrlCore u.data = (some ldata, false) := by
          rw [← ho, ← hsnd]
        obtain ⟨hidem, hne, hnet⟩ := extract_core_idem u.data hsch hsemi hseg ldata hcoreu
        have hsne : s ≠ "" := by
          intro h0
          apply hne
          rw [← hsd, h0]
        have hsf : ¬((PyVal.pstr s).falsy = true) := by
          simp [PyVal.falsy, hsne]
        have hbrs : bracketsMismatch (urlparseL s.data).netloc = false := by
          rw [hsd, hnet]
          rwa [Bool.not_eq_true] at hbr
        rw [extract_url, if_neg hsf, if_neg (by rw [hbrs]; simp)]
        rw [hsd, hidem]
        have hstr : (⟨ldata⟩ : String) = s := String.ext hsd.symm
        simp [hstr]

/-- Witness for the amended claim C4 at a concrete canonical URL: the
extraction maps it to itself, so re-running it returns the same value. -/
theorem base_url_extraction_idempotent_witness :
    extract_url (.pstr "https://github.com/getdnsapi/stubby") =
      .ok (some "https://github.com/getdnsapi/stubby", false) :=
  base_url_extraction_idempotent "https://github.com/getdnsapi/stubby"
    "https://github.com/getdnsapi/stubby" (by decide) (by decide) (by decide) (by decide) rfl
